import Mathlib

/-!
Verification of the blofin-proxy repository (Go).

The repository contains two variants of the same CORS proxy:
  * the simple variant in `main.go` (handler `blofinProxy`), and
  * the optimized variant (handler `blofinProxyOptimized`) in the second Go
    source file shipped with the repository.

This file gives a shallow embedding of the parts of both programs that the
specification talks about: the target-URL reconstruction built on
`net/url.Parse`, the header maps with Go canonical MIME keys, the hop-by-hop
denylist, the CORS middleware, the `net/http` mux routing of both variants,
the request counter of the optimized variant, and the context/deadline
plumbing of the outbound call.

Conventions:
  * Go byte-level string operations are modelled on ASCII characters; every
    string the claims mention is ASCII.
  * Go maps (`http.Header`) are modelled as association lists whose keys are
    the map keys; no claim depends on Go randomized map iteration order.
  * Fallible external calls (`http.NewRequest`, `client.Do`) are supplied by
    an explicit oracle so that every control-flow path of the handlers is a
    total function of its inputs.
-/

/-! ## ASCII character helpers -/

/-- ASCII upper-case map, as applied byte-wise by Go
`textproto.CanonicalMIMEHeaderKey`. -/
def asciiToUpper (c : Char) : Char :=
  if 97 ≤ c.toNat ∧ c.toNat ≤ 122 then Char.ofNat (c.toNat - 32) else c

/-- ASCII lower-case map, as applied byte-wise by Go
`textproto.CanonicalMIMEHeaderKey` and (on ASCII input) `strings.ToLower`. -/
def asciiToLower (c : Char) : Char :=
  if 65 ≤ c.toNat ∧ c.toNat ≤ 90 then Char.ofNat (c.toNat + 32) else c

/-- Model of Go `strings.ToLower`, restricted to ASCII (all header names the
program compares are ASCII). -/
def lowerStr (s : String) : String := String.mk (s.toList.map asciiToLower)

theorem char_toNat_ofNat_of_lt {n : Nat} (h : n < 55296) :
    (Char.ofNat n).toNat = n := by
  rw [Char.ofNat, dif_pos (Or.inl h)]
  rfl

theorem asciiToUpper_eq_of_lower {c : Char} (hc : 97 ≤ c.toNat ∧ c.toNat ≤ 122) :
    asciiToUpper c = Char.ofNat (c.toNat - 32) := by
  unfold asciiToUpper; rw [if_pos hc]

theorem asciiToUpper_eq_self {c : Char} (hc : ¬ (97 ≤ c.toNat ∧ c.toNat ≤ 122)) :
    asciiToUpper c = c := by
  unfold asciiToUpper; rw [if_neg hc]

theorem asciiToLower_eq_of_upper {c : Char} (hc : 65 ≤ c.toNat ∧ c.toNat ≤ 90) :
    asciiToLower c = Char.ofNat (c.toNat + 32) := by
  unfold asciiToLower; rw [if_pos hc]

theorem asciiToLower_eq_self {c : Char} (hc : ¬ (65 ≤ c.toNat ∧ c.toNat ≤ 90)) :
    asciiToLower c = c := by
  unfold asciiToLower; rw [if_neg hc]

theorem asciiToLower_asciiToUpper (c : Char) :
    asciiToLower (asciiToUpper c) = asciiToLower c := by
  by_cases hc : 97 ≤ c.toNat ∧ c.toNat ≤ 122
  · have h1 : (Char.ofNat (c.toNat - 32)).toNat = c.toNat - 32 :=
      char_toNat_ofNat_of_lt (by omega)
    rw [asciiToUpper_eq_of_lower hc,
      asciiToLower_eq_of_upper (by rw [h1]; omega),
      asciiToLower_eq_self (by omega), h1]
    have h2 : c.toNat - 32 + 32 = c.toNat := by omega
    rw [h2, Char.ofNat_toNat]
  · rw [asciiToUpper_eq_self hc]

theorem asciiToLower_idem (c : Char) :
    asciiToLower (asciiToLower c) = asciiToLower c := by
  by_cases hc : 65 ≤ c.toNat ∧ c.toNat ≤ 90
  · have h1 : (Char.ofNat (c.toNat + 32)).toNat = c.toNat + 32 :=
      char_toNat_ofNat_of_lt (by omega)
    rw [asciiToLower_eq_of_upper hc]
    exact asciiToLower_eq_self (by rw [h1]; omega)
  · rw [asciiToLower_eq_self hc, asciiToLower_eq_self hc]

theorem asciiToUpper_idem (c : Char) :
    asciiToUpper (asciiToUpper c) = asciiToUpper c := by
  by_cases hc : 97 ≤ c.toNat ∧ c.toNat ≤ 122
  · have h1 : (Char.ofNat (c.toNat - 32)).toNat = c.toNat - 32 :=
      char_toNat_ofNat_of_lt (by omega)
    rw [asciiToUpper_eq_of_lower hc]
    exact asciiToUpper_eq_self (by rw [h1]; omega)
  · rw [asciiToUpper_eq_self hc, asciiToUpper_eq_self hc]

/-! ## Go textproto canonical MIME header keys -/

/-- Model of Go textproto `validHeaderFieldByte`: HTTP token characters
(RFC 7230): letters, digits, and the fifteen listed punctuation bytes. -/
def validHeaderFieldByte (c : Char) : Bool :=
  let n := c.toNat
  (48 ≤ n && n ≤ 57) || (65 ≤ n && n ≤ 90) || (97 ≤ n && n ≤ 122) ||
  n == 33 || n == 35 || n == 36 || n == 37 || n == 38 || n == 39 ||
  n == 42 || n == 43 || n == 45 || n == 46 || n == 94 || n == 95 ||
  n == 96 || n == 124 || n == 126

/-- Byte loop of Go `textproto.CanonicalMIMEHeaderKey`: upper-case the first
letter and every letter that follows a hyphen, lower-case everything else.
The flag records whether the previous output byte was a hyphen (initially
true). -/
def canonChars : Bool → List Char → List Char
  | _, [] => []
  | up, c :: rest =>
      let c2 := if up then asciiToUpper c else asciiToLower c
      c2 :: canonChars (c2 = '-') rest

/-- Model of Go `textproto.CanonicalMIMEHeaderKey`: if the key contains a
byte that is not a valid header-field byte it is returned unchanged,
otherwise it is canonicalized by `canonChars`. -/
def canonicalMIMEHeaderKey (s : String) : String :=
  if s.toList.all validHeaderFieldByte then String.mk (canonChars true s.toList)
  else s

/-- The hop-by-hop header list of `isHopByHopHeader` (identical in both
variants, `main.go` lines 147 to 156). -/
def hopByHopHeaders : List String :=
  ["Connection", "Keep-Alive", "Proxy-Authenticate", "Proxy-Authorization",
   "Te", "Trailers", "Transfer-Encoding", "Upgrade"]

/-- `isHopByHopHeader` from `main.go` lines 146 to 165: lower-case the
argument and compare it with the lower-cased entries of the list. -/
def isHopByHopHeader (header : String) : Bool :=
  let h := lowerStr header
  hopByHopHeaders.any (fun x => lowerStr x == h)

theorem validHeaderFieldByte_asciiToUpper {c : Char}
    (h : validHeaderFieldByte c = true) :
    validHeaderFieldByte (asciiToUpper c) = true := by
  by_cases hc : 97 ≤ c.toNat ∧ c.toNat ≤ 122
  · have h1 : (Char.ofNat (c.toNat - 32)).toNat = c.toNat - 32 :=
      char_toNat_ofNat_of_lt (by omega)
    rw [asciiToUpper_eq_of_lower hc]
    simp only [validHeaderFieldByte, Bool.or_eq_true, Bool.and_eq_true,
      decide_eq_true_eq, beq_iff_eq, h1]
    omega
  · rwa [asciiToUpper_eq_self hc]

theorem validHeaderFieldByte_asciiToLower {c : Char}
    (h : validHeaderFieldByte c = true) :
    validHeaderFieldByte (asciiToLower c) = true := by
  by_cases hc : 65 ≤ c.toNat ∧ c.toNat ≤ 90
  · have h1 : (Char.ofNat (c.toNat + 32)).toNat = c.toNat + 32 :=
      char_toNat_ofNat_of_lt (by omega)
    rw [asciiToLower_eq_of_upper hc]
    simp only [validHeaderFieldByte, Bool.or_eq_true, Bool.and_eq_true,
      decide_eq_true_eq, beq_iff_eq, h1]
    omega
  · rwa [asciiToLower_eq_self hc]

theorem canonChars_map_asciiToLower (b : Bool) (l : List Char) :
    (canonChars b l).map asciiToLower = l.map asciiToLower := by
  induction l generalizing b with
  | nil => rfl
  | cons c rest ih =>
      cases b <;>
        simp [canonChars, asciiToLower_asciiToUpper, asciiToLower_idem, ih]

/-- Lower-casing erases the effect of canonicalization. -/
theorem lowerStr_canonicalMIMEHeaderKey (s : String) :
    lowerStr (canonicalMIMEHeaderKey s) = lowerStr s := by
  unfold canonicalMIMEHeaderKey
  split
  · unfold lowerStr
    rw [show (String.mk (canonChars true s.toList)).toList
          = canonChars true s.toList from rfl,
      canonChars_map_asciiToLower]
  · rfl

theorem canonChars_idem (b : Bool) (l : List Char) :
    canonChars b (canonChars b l) = canonChars b l := by
  induction l generalizing b with
  | nil => rfl
  | cons c rest ih =>
      cases b <;> simp [canonChars, asciiToUpper_idem, asciiToLower_idem, ih]

theorem canonChars_all_valid (b : Bool) (l : List Char)
    (h : l.all validHeaderFieldByte = true) :
    (canonChars b l).all validHeaderFieldByte = true := by
  induction l generalizing b with
  | nil => rfl
  | cons c rest ih =>
      simp only [List.all_cons, Bool.and_eq_true] at h
      cases b with
      | true =>
          show (asciiToUpper c :: canonChars _ rest).all validHeaderFieldByte
            = true
          rw [List.all_cons, Bool.and_eq_true]
          exact ⟨validHeaderFieldByte_asciiToUpper h.1, ih _ h.2⟩
      | false =>
          show (asciiToLower c :: canonChars _ rest).all validHeaderFieldByte
            = true
          rw [List.all_cons, Bool.and_eq_true]
          exact ⟨validHeaderFieldByte_asciiToLower h.1, ih _ h.2⟩

theorem canonicalMIMEHeaderKey_idem (s : String) :
    canonicalMIMEHeaderKey (canonicalMIMEHeaderKey s)
      = canonicalMIMEHeaderKey s := by
  by_cases h : s.toList.all validHeaderFieldByte = true
  · have h2 : (String.mk (canonChars true s.toList)).toList.all
        validHeaderFieldByte = true := canonChars_all_valid true _ h
    unfold canonicalMIMEHeaderKey
    rw [if_pos h, if_pos h2]
    rw [show (String.mk (canonChars true s.toList)).toList
          = canonChars true s.toList from rfl, canonChars_idem]
  · unfold canonicalMIMEHeaderKey
    rw [if_neg h, if_neg h]

theorem isHopByHopHeader_lowerStr_congr {s t : String}
    (h : lowerStr s = lowerStr t) :
    isHopByHopHeader s = isHopByHopHeader t := by
  unfold isHopByHopHeader
  rw [h]

theorem isHopByHopHeader_canonicalMIMEHeaderKey (s : String) :
    isHopByHopHeader (canonicalMIMEHeaderKey s) = isHopByHopHeader s :=
  isHopByHopHeader_lowerStr_congr (lowerStr_canonicalMIMEHeaderKey s)

theorem lowerStr_mem_of_isHop {n : String} (h : isHopByHopHeader n = true) :
    lowerStr n ∈ hopByHopHeaders.map lowerStr := by
  unfold isHopByHopHeader at h
  simp only [List.any_eq_true, beq_iff_eq] at h
  obtain ⟨x, hx, he⟩ := h
  exact List.mem_map.mpr ⟨x, hx, he⟩

/-! ## Go http.Header model -/

/-- A Go `http.Header` (`map[string][]string`): an association list from map
keys to value slices. -/
abbrev Header := List (String × List String)

/-- Go `Header.Values`-style lookup: the value slice stored under the
canonical form of the key (empty when absent). -/
def headerValues (h : Header) (key : String) : List String :=
  ((h.find? (fun p => p.1 == canonicalMIMEHeaderKey key)).map Prod.snd).getD []

/-- Go `Header.Add`: canonicalize the key and append the value to the slice
stored under it (creating the entry if needed). -/
def headerAdd (h : Header) (key value : String) : Header :=
  let ck := canonicalMIMEHeaderKey key
  if h.any (fun p => p.1 == ck) then
    h.map (fun p => if p.1 = ck then (p.1, p.2 ++ [value]) else p)
  else h ++ [(ck, [value])]

/-- Go `Header.Set`: canonicalize the key and replace the slice stored under
it with the single value. -/
def headerSet (h : Header) (key value : String) : Header :=
  let ck := canonicalMIMEHeaderKey key
  if h.any (fun p => p.1 == ck) then
    h.map (fun p => if p.1 = ck then (p.1, [value]) else p)
  else h ++ [(ck, [value])]

/-- `Header.Add` of every value of a slice in order (the inner loop of the
header-copy code in both handlers). -/
def addValues (h : Header) (key : String) (values : List String) : Header :=
  values.foldl (fun acc v => headerAdd acc key v) h

/-- The header-copy loop of both handlers (`main.go` lines 98 to 106 and
123 to 130): for every entry of `src` that is not hop-by-hop, `Add` each of
its values to `dst` in order. -/
def copyHeaders (dst src : Header) : Header :=
  src.foldl (fun acc p =>
    if isHopByHopHeader p.1 then acc else addValues acc p.1 p.2) dst

/-! ## Header lemmas -/


theorem headerValues_headerAdd (h : Header) (k v q : String) :
    headerValues (headerAdd h k v) q =
      if canonicalMIMEHeaderKey q = canonicalMIMEHeaderKey k then
        headerValues h q ++ [v]
      else headerValues h q := by
  unfold headerAdd headerValues
  set ck := canonicalMIMEHeaderKey k
  set cq := canonicalMIMEHeaderKey q
  by_cases hany : h.any (fun p => p.1 == ck) = true
  · rw [if_pos hany, List.find?_map]
    have hpred : ((fun p : String × List String => p.1 == cq) ∘
        fun p => if p.1 = ck then (p.1, p.2 ++ [v]) else p)
          = fun p => p.1 == cq := by
      funext p
      by_cases hp : p.1 = ck <;> simp [hp]
    rw [hpred]
    by_cases heq : cq = ck
    · rw [if_pos heq]
      rcases hfind : h.find? (fun p => p.1 == cq) with _ | p
      · exfalso
        rw [List.find?_eq_none] at hfind
        rw [List.any_eq_true] at hany
        obtain ⟨p, hp, hpk⟩ := hany
        exact hfind p hp (by rw [heq]; exact hpk)
      · have hpq : p.1 = cq := by simpa using List.find?_some hfind
        rw [hfind]
        simp [hpq, heq]
    · rw [if_neg heq]
      rcases hfind : h.find? (fun p => p.1 == cq) with _ | p
      · rw [hfind]
        rfl
      · have hpq : p.1 = cq := by simpa using List.find?_some hfind
        rw [hfind]
        simp [hpq, heq]
  · rw [if_neg hany, List.find?_append]
    by_cases heq : cq = ck
    · rw [if_pos heq]
      have hnone : h.find? (fun p => p.1 == cq) = none := by
        rw [List.find?_eq_none]
        intro p hp hpk
        exact hany (List.any_eq_true.mpr ⟨p, hp, by rw [← heq]; exact hpk⟩)
      rw [hnone]
      simp [List.find?, heq]
    · rw [if_neg heq]
      have hsingle : List.find? (fun p : String × List String => p.1 == cq)
          [(ck, [v])] = none := by
        simp only [List.find?]
        have hb : (ck == cq) = false := by
          rw [beq_eq_false_iff_ne]
          intro hc
          exact heq hc.symm
        rw [hb]
      rw [hsingle]
      simp

theorem headerValues_headerSet (h : Header) (k v q : String) :
    headerValues (headerSet h k v) q =
      if canonicalMIMEHeaderKey q = canonicalMIMEHeaderKey k then [v]
      else headerValues h q := by
  unfold headerSet headerValues
  set ck := canonicalMIMEHeaderKey k
  set cq := canonicalMIMEHeaderKey q
  by_cases hany : h.any (fun p => p.1 == ck) = true
  · rw [if_pos hany, List.find?_map]
    have hpred : ((fun p : String × List String => p.1 == cq) ∘
        fun p => if p.1 = ck then (p.1, [v]) else p)
          = fun p => p.1 == cq := by
      funext p
      by_cases hp : p.1 = ck <;> simp [hp]
    rw [hpred]
    by_cases heq : cq = ck
    · rw [if_pos heq]
      rcases hfind : h.find? (fun p => p.1 == cq) with _ | p
      · exfalso
        rw [List.find?_eq_none] at hfind
        rw [List.any_eq_true] at hany
        obtain ⟨p, hp, hpk⟩ := hany
        exact hfind p hp (by rw [heq]; exact hpk)
      · have hpq : p.1 = cq := by simpa using List.find?_some hfind
        rw [hfind]
        simp [hpq, heq]
    · rw [if_neg heq]
      rcases hfind : h.find? (fun p => p.1 == cq) with _ | p
      · rw [hfind]
        rfl
      · have hpq : p.1 = cq := by simpa using List.find?_some hfind
        rw [hfind]
        simp [hpq, heq]
  · rw [if_neg hany, List.find?_append]
    by_cases heq : cq = ck
    · rw [if_pos heq]
      have hnone : h.find? (fun p => p.1 == cq) = none := by
        rw [List.find?_eq_none]
        intro p hp hpk
        exact hany (List.any_eq_true.mpr ⟨p, hp, by rw [← heq]; exact hpk⟩)
      rw [hnone]
      simp [List.find?, heq]
    · rw [if_neg heq]
      have hsingle : List.find? (fun p : String × List String => p.1 == cq)
          [(ck, [v])] = none := by
        simp only [List.find?]
        have hb : (ck == cq) = false := by
          rw [beq_eq_false_iff_ne]
          intro hc
          exact heq hc.symm
        rw [hb]
      rw [hsingle]
      simp

theorem headerValues_addValues (h : Header) (k : String) (vs : List String)
    (q : String) :
    headerValues (addValues h k vs) q =
      if canonicalMIMEHeaderKey q = canonicalMIMEHeaderKey k then
        headerValues h q ++ vs
      else headerValues h q := by
  induction vs generalizing h with
  | nil =>
      unfold addValues
      simp only [List.foldl_nil]
      split <;> simp
  | cons v vs ih =>
      show headerValues (addValues (headerAdd h k v) k vs) q = _
      rw [ih, headerValues_headerAdd]
      by_cases heq : canonicalMIMEHeaderKey q = canonicalMIMEHeaderKey k
      · rw [if_pos heq, if_pos heq, if_pos heq]
        simp
      · rw [if_neg heq, if_neg heq, if_neg heq]

/-- Derived specification of the header-copy loop: the values that `src`
contributes to a given key (used only in proofs). -/
def contrib (q : String) : Header → List String
  | [] => []
  | p :: rest =>
      (if isHopByHopHeader p.1 = false ∧
          canonicalMIMEHeaderKey q = canonicalMIMEHeaderKey p.1
       then p.2 else []) ++ contrib q rest

theorem contrib_cons (q : String) (p : String × List String) (rest : Header) :
    contrib q (p :: rest) =
      (if isHopByHopHeader p.1 = false ∧
          canonicalMIMEHeaderKey q = canonicalMIMEHeaderKey p.1
       then p.2 else []) ++ contrib q rest := rfl

theorem headerValues_copyHeaders (dst src : Header) (q : String) :
    headerValues (copyHeaders dst src) q =
      headerValues dst q ++ contrib q src := by
  induction src generalizing dst with
  | nil =>
      unfold copyHeaders contrib
      simp
  | cons p src ih =>
      show headerValues (copyHeaders
        (if isHopByHopHeader p.1 then dst else addValues dst p.1 p.2) src) q = _
      rw [ih, contrib_cons]
      by_cases hhop : isHopByHopHeader p.1 = true
      · rw [if_pos hhop]
        have hno : ¬ (isHopByHopHeader p.1 = false ∧
            canonicalMIMEHeaderKey q = canonicalMIMEHeaderKey p.1) := by
          intro hc
          rw [hhop] at hc
          exact absurd hc.1 (by simp)
        rw [if_neg hno]
        simp
      · rw [if_neg hhop, headerValues_addValues]
        have hf : isHopByHopHeader p.1 = false := by simpa using hhop
        by_cases heq : canonicalMIMEHeaderKey q = canonicalMIMEHeaderKey p.1
        · rw [if_pos heq, if_pos ⟨hf, heq⟩, List.append_assoc]
        · rw [if_neg heq, if_neg (fun hc => heq hc.2)]
          simp

theorem fst_mem_headerAdd {h : Header} {k v : String} {p : String × List String}
    (hp : p ∈ headerAdd h k v) :
    p.1 ∈ h.map Prod.fst ∨ p.1 = canonicalMIMEHeaderKey k := by
  by_cases hany : h.any (fun p => p.1 == canonicalMIMEHeaderKey k) = true
  · have he : headerAdd h k v
        = h.map (fun p => if p.1 = canonicalMIMEHeaderKey k
            then (p.1, p.2 ++ [v]) else p) := by
      unfold headerAdd
      rw [if_pos hany]
    rw [he] at hp
    obtain ⟨p0, hp0, heq⟩ := List.mem_map.mp hp
    left
    have h1 : p.1 = p0.1 := by
      rw [← heq]
      split <;> rfl
    rw [h1]
    exact List.mem_map_of_mem Prod.fst hp0
  · have he : headerAdd h k v = h ++ [(canonicalMIMEHeaderKey k, [v])] := by
      unfold headerAdd
      rw [if_neg hany]
    rw [he] at hp
    rcases List.mem_append.mp hp with h1 | h1
    · exact Or.inl (List.mem_map_of_mem Prod.fst h1)
    · right
      have h2 : p = (canonicalMIMEHeaderKey k, [v]) := by simpa using h1
      rw [h2]

theorem mem_keys_headerAdd {h : Header} {k v q : String}
    (hq : q ∈ (headerAdd h k v).map Prod.fst) :
    q ∈ h.map Prod.fst ∨ q = canonicalMIMEHeaderKey k := by
  obtain ⟨p, hp, heq⟩ := List.mem_map.mp hq
  rcases fst_mem_headerAdd hp with h1 | h1
  · left
    rw [← heq]
    exact h1
  · right
    rw [← heq]
    exact h1

theorem mem_keys_addValues {h : Header} {k : String} {vs : List String}
    {q : String} (hq : q ∈ (addValues h k vs).map Prod.fst) :
    q ∈ h.map Prod.fst ∨ q = canonicalMIMEHeaderKey k := by
  induction vs generalizing h with
  | nil => exact Or.inl hq
  | cons v vs ih =>
      rcases ih (h := headerAdd h k v) hq with h1 | h1
      · exact mem_keys_headerAdd h1
      · exact Or.inr h1

theorem mem_keys_copyHeaders {dst src : Header} {q : String}
    (hq : q ∈ (copyHeaders dst src).map Prod.fst) :
    q ∈ dst.map Prod.fst ∨
      ∃ p ∈ src, isHopByHopHeader p.1 = false ∧
        q = canonicalMIMEHeaderKey p.1 := by
  induction src generalizing dst with
  | nil => exact Or.inl hq
  | cons p src ih =>
      have hq2 : q ∈ (copyHeaders
          (if isHopByHopHeader p.1 then dst else addValues dst p.1 p.2)
          src).map Prod.fst := hq
      rcases ih hq2 with h1 | h1
      · by_cases hhop : isHopByHopHeader p.1 = true
        · rw [if_pos hhop] at h1
          exact Or.inl h1
        · rw [if_neg hhop] at h1
          rcases mem_keys_addValues h1 with h2 | h2
          · exact Or.inl h2
          · exact Or.inr ⟨p, List.mem_cons_self p src, by simpa using hhop, h2⟩
      · obtain ⟨p0, hp0, hf, he⟩ := h1
        exact Or.inr ⟨p0, List.mem_cons_of_mem _ hp0, hf, he⟩

/-! ## Go net/url.Parse model and target URL construction -/

/-- Go `stringContainsCTLByte` test for one byte: ASCII control characters
make `url.Parse` fail. -/
def isCtlChar (c : Char) : Bool := c.toNat < 32 || c.toNat == 127

/-- Characters strictly before the first occurrence of `stop` (the first
component of Go `strings.Cut`). -/
def takeUntil (stop : Char) : List Char → List Char
  | [] => []
  | c :: cs => if c = stop then [] else c :: takeUntil stop cs

/-- Suffix starting at the first occurrence of `stop` (empty when absent). -/
def dropUntil (stop : Char) : List Char → List Char
  | [] => []
  | c :: cs => if c = stop then c :: cs else dropUntil stop cs

/-- Hexadecimal digit value, as in Go `net/url` `unhex`. -/
def hexVal (c : Char) : Option Nat :=
  if 48 ≤ c.toNat ∧ c.toNat ≤ 57 then some (c.toNat - 48)
  else if 97 ≤ c.toNat ∧ c.toNat ≤ 102 then some (c.toNat - 87)
  else if 65 ≤ c.toNat ∧ c.toNat ≤ 70 then some (c.toNat - 55)
  else none

/-- Percent-decoding as done by Go `net/url` `unescape` when setting the
path: a percent sign must be followed by two hex digits, other bytes pass
through (byte-level, modelled on ASCII). -/
def unescapePct : List Char → Option (List Char)
  | [] => some []
  | c :: rest =>
      if c = '%' then
        match rest with
        | a :: b :: rest2 =>
            match hexVal a, hexVal b with
            | some ha, some hb =>
                (unescapePct rest2).map (fun l => Char.ofNat (16 * ha + hb) :: l)
            | _, _ => none
        | _ => none
      else (unescapePct rest).map (fun l => c :: l)

/-- Scheme characters allowed by Go `getScheme` after the first letter. -/
def schemeTailChar (c : Char) : Bool :=
  c.isAlpha || c.isDigit || c = '+' || c = '-' || c = '.'

/-- Model of Go `net/url` `getScheme`: `some (scheme, rest)` when the input
has the shape `scheme ":" rest` with a well-formed scheme; `some ([], input)`
when there is no scheme; `none` on a leading colon. -/
def getScheme (l : List Char) : Option (List Char × List Char) :=
  match dropUntil ':' l with
  | [] => some ([], l)
  | _ :: rest =>
      match takeUntil ':' l with
      | [] => none
      | c :: cs =>
          if c.isAlpha && cs.all schemeTailChar then some (c :: cs, rest)
          else some ([], l)

/-- Host characters accepted by this model (letters, digits, dots, hyphens,
and a port colon). Go accepts a few more host byte forms (percent escapes,
IPv6 brackets); every host reached in this development is the literal
upstream host, which both accept. -/
def hostCharOk (c : Char) : Bool :=
  c.isAlpha || c.isDigit || c = '.' || c = '-' || c = ':'

/-- A parsed Go URL (the fields used by the program; fragments and user
info never occur in the proxied URLs). -/
structure GoURL where
  scheme : String
  host : String
  path : String
  rawQuery : String
deriving DecidableEq

/-- Authority-and-path stage of the URL parser: split the host at the first
slash, check its characters, and percent-decode the path. -/
def parseAuthority (schemeCs rest2 rawQ : List Char) : Option GoURL :=
  if (takeUntil '/' rest2).all hostCharOk then
    (unescapePct (dropUntil '/' rest2)).map (fun path =>
      { scheme := lowerStr (String.mk schemeCs)
        host := String.mk (takeUntil '/' rest2)
        path := String.mk path
        rawQuery := String.mk rawQ })
  else none

/-- Stage of the URL parser after scheme extraction: cut the raw query at
the first question mark, then require an authority marked by two slashes. -/
def parseAfterScheme (schemeCs rest0 : List Char) : Option GoURL :=
  match takeUntil '?' rest0 with
  | '/' :: '/' :: rest2 =>
      parseAuthority schemeCs rest2 ((dropUntil '?' rest0).drop 1)
  | _ => none

/-- Model of Go `url.Parse` for absolute URLs with an authority: reject
control bytes, split off the fragment, extract the scheme, cut the raw query
at the first question mark, then split authority and percent-decoded path.
Inputs without a scheme or authority (which never arise from the program,
whose input is the fixed `https` base concatenated with a path) are mapped
to `none`. -/
def goURLParse (s : String) : Option GoURL :=
  if s.toList.any isCtlChar then none
  else
    match getScheme (takeUntil '#' s.toList) with
    | none => none
    | some (schemeCs, rest0) =>
        if schemeCs = [] then none
        else parseAfterScheme schemeCs rest0

/-- `BLOFIN_API_BASE` from `main.go` line 15 (same constant in both
variants). -/
def BLOFIN_API_BASE : String := "https://openapi.blofin.com"

/-- Target-URL construction of both handlers (`main.go` lines 78 to 88,
optimized variant lines 183 to 190): parse the base concatenated with the
inbound path, then overwrite the raw query with the inbound raw query. -/
def buildTargetURL (path rawQuery : String) : Option GoURL :=
  (goURLParse (BLOFIN_API_BASE ++ path)).map
    (fun u => { u with rawQuery := rawQuery })

/-! ## Splitting lemmas for the URL parser -/

theorem takeUntil_cons_eq (stop : Char) (cs : List Char) :
    takeUntil stop (stop :: cs) = [] := by
  show (if stop = stop then [] else stop :: takeUntil stop cs) = []
  rw [if_pos rfl]

theorem dropUntil_cons_eq (stop : Char) (cs : List Char) :
    dropUntil stop (stop :: cs) = stop :: cs := by
  show (if stop = stop then stop :: cs else dropUntil stop cs) = stop :: cs
  rw [if_pos rfl]

theorem takeUntil_eq_self {stop : Char} {l : List Char}
    (h : ∀ c ∈ l, c ≠ stop) : takeUntil stop l = l := by
  induction l with
  | nil => rfl
  | cons c cs ih =>
      show (if c = stop then [] else c :: takeUntil stop cs) = c :: cs
      rw [if_neg (h c (List.mem_cons_self c cs)),
        ih (fun x hx => h x (List.mem_cons_of_mem _ hx))]

theorem dropUntil_eq_nil {stop : Char} {l : List Char}
    (h : ∀ c ∈ l, c ≠ stop) : dropUntil stop l = [] := by
  induction l with
  | nil => rfl
  | cons c cs ih =>
      show (if c = stop then c :: cs else dropUntil stop cs) = []
      rw [if_neg (h c (List.mem_cons_self c cs))]
      exact ih (fun x hx => h x (List.mem_cons_of_mem _ hx))

theorem takeUntil_append_left {stop : Char} {l₁ l₂ : List Char}
    (h : ∀ c ∈ l₁, c ≠ stop) :
    takeUntil stop (l₁ ++ l₂) = l₁ ++ takeUntil stop l₂ := by
  induction l₁ with
  | nil => rfl
  | cons c cs ih =>
      show (if c = stop then [] else c :: takeUntil stop (cs ++ l₂))
        = c :: (cs ++ takeUntil stop l₂)
      rw [if_neg (h c (List.mem_cons_self c cs)),
        ih (fun x hx => h x (List.mem_cons_of_mem _ hx))]

theorem dropUntil_append_left {stop : Char} {l₁ l₂ : List Char}
    (h : ∀ c ∈ l₁, c ≠ stop) :
    dropUntil stop (l₁ ++ l₂) = dropUntil stop l₂ := by
  induction l₁ with
  | nil => rfl
  | cons c cs ih =>
      show (if c = stop then c :: (cs ++ l₂) else dropUntil stop (cs ++ l₂))
        = dropUntil stop l₂
      rw [if_neg (h c (List.mem_cons_self c cs))]
      exact ih (fun x hx => h x (List.mem_cons_of_mem _ hx))

theorem unescapePct_no_pct {l : List Char} (h : ∀ c ∈ l, c ≠ '%') :
    unescapePct l = some l := by
  induction l with
  | nil => rfl
  | cons c cs ih =>
      unfold unescapePct
      rw [if_neg (h c (List.mem_cons_self c cs)),
        ih (fun x hx => h x (List.mem_cons_of_mem _ hx))]
      rfl

/-! ## Safe path characters for claim C1 -/

/-- A conservative class of characters that do not interfere with URL
parsing: letters, digits, and the path bytes slash, hyphen, underscore,
dot, tilde. -/
def urlPathSafeChar (c : Char) : Bool :=
  let n := c.toNat
  (48 ≤ n && n ≤ 57) || (65 ≤ n && n ≤ 90) || (97 ≤ n && n ≤ 122) ||
  n == 47 || n == 45 || n == 95 || n == 46 || n == 126

theorem char_ne_of_toNat_ne {c d : Char} (h : c.toNat ≠ d.toNat) : c ≠ d :=
  fun he => h (by rw [he])

theorem urlPathSafeChar_toNat {c : Char} (h : urlPathSafeChar c = true) :
    (48 ≤ c.toNat ∧ c.toNat ≤ 57) ∨ (65 ≤ c.toNat ∧ c.toNat ≤ 90) ∨
    (97 ≤ c.toNat ∧ c.toNat ≤ 122) ∨ c.toNat = 47 ∨ c.toNat = 45 ∨
    c.toNat = 95 ∨ c.toNat = 46 ∨ c.toNat = 126 := by
  have h2 := h
  simp only [urlPathSafeChar, Bool.or_eq_true, Bool.and_eq_true,
    decide_eq_true_eq, beq_iff_eq] at h2
  tauto

theorem urlPathSafeChar_spec {c : Char} (h : urlPathSafeChar c = true) :
    isCtlChar c = false ∧ c ≠ '#' ∧ c ≠ '?' ∧ c ≠ '%' := by
  have hn := urlPathSafeChar_toNat h
  refine ⟨?_, ?_, ?_, ?_⟩
  · simp only [isCtlChar, Bool.or_eq_false_iff, decide_eq_false_iff_not,
      beq_eq_false_iff_ne, ne_eq]
    omega
  · exact char_ne_of_toNat_ne (by rw [show ('#').toNat = 35 from rfl]; omega)
  · exact char_ne_of_toNat_ne (by rw [show ('?').toNat = 63 from rfl]; omega)
  · exact char_ne_of_toNat_ne (by rw [show ('%').toNat = 37 from rfl]; omega)


theorem goURLParse_base_append (xs : List Char)
    (hx : ∀ c ∈ xs, urlPathSafeChar c = true) :
    goURLParse (String.mk ("https://openapi.blofin.com/api/".toList ++ xs))
      = some { scheme := "https", host := "openapi.blofin.com",
               path := String.mk ("/api/".toList ++ xs), rawQuery := "" } := by
  set cs := "https://openapi.blofin.com/api/".toList ++ xs with hcs
  have hxctl : ∀ c ∈ xs, isCtlChar c = false :=
    fun c hc => (urlPathSafeChar_spec (hx c hc)).1
  have hxhash : ∀ c ∈ xs, c ≠ '#' :=
    fun c hc => (urlPathSafeChar_spec (hx c hc)).2.1
  have hxq : ∀ c ∈ xs, c ≠ '?' :=
    fun c hc => (urlPathSafeChar_spec (hx c hc)).2.2.1
  have hxpct : ∀ c ∈ xs, c ≠ '%' :=
    fun c hc => (urlPathSafeChar_spec (hx c hc)).2.2.2
  have hxsany : xs.any isCtlChar = false := by
    rw [List.any_eq_false]
    intro c hc
    simp [hxctl c hc]
  have hctl : cs.any isCtlChar = false := by
    rw [hcs, List.any_append, hxsany, Bool.or_false]
    decide
  have hhash : ∀ c ∈ cs, c ≠ '#' := by
    rw [hcs]
    intro c hc
    rcases List.mem_append.mp hc with h1 | h1
    · exact (by decide :
        ∀ c ∈ "https://openapi.blofin.com/api/".toList, c ≠ '#') c h1
    · exact hxhash c h1
  have hnofrag : takeUntil '#' cs = cs := takeUntil_eq_self hhash
  have hsplit1 : cs
      = "https".toList ++ (':' :: ("//openapi.blofin.com/api/".toList ++ xs))
      := by
    rw [hcs,
      show "https://openapi.blofin.com/api/".toList
        = "https".toList ++ ':' :: "//openapi.blofin.com/api/".toList
        from by decide,
      List.append_assoc, List.cons_append]
  have hdropc : dropUntil ':' cs
      = ':' :: ("//openapi.blofin.com/api/".toList ++ xs) := by
    rw [hsplit1, dropUntil_append_left (by decide), dropUntil_cons_eq]
  have htakec : takeUntil ':' cs = "https".toList := by
    rw [hsplit1, takeUntil_append_left (by decide), takeUntil_cons_eq,
      List.append_nil]
  have hscheme : getScheme cs
      = some ("https".toList, "//openapi.blofin.com/api/".toList ++ xs) := by
    unfold getScheme
    rw [hdropc, htakec]
    rfl
  have hrestq : ∀ c ∈ "//openapi.blofin.com/api/".toList ++ xs, c ≠ '?' := by
    intro c hc
    rcases List.mem_append.mp hc with h1 | h1
    · exact (by decide :
        ∀ c ∈ "//openapi.blofin.com/api/".toList, c ≠ '?') c h1
    · exact hxq c h1
  have htakeq : takeUntil '?' ("//openapi.blofin.com/api/".toList ++ xs)
      = "//openapi.blofin.com/api/".toList ++ xs := takeUntil_eq_self hrestq
  have hdropq : dropUntil '?' ("//openapi.blofin.com/api/".toList ++ xs)
      = [] := dropUntil_eq_nil hrestq
  have hrest2 : "//openapi.blofin.com/api/".toList ++ xs
      = '/' :: '/' :: ("openapi.blofin.com/api/".toList ++ xs) := by
    rw [show "//openapi.blofin.com/api/".toList
        = '/' :: '/' :: "openapi.blofin.com/api/".toList from by decide,
      List.cons_append, List.cons_append]
  have hsplit2 : "openapi.blofin.com/api/".toList ++ xs
      = "openapi.blofin.com".toList ++ ('/' :: ("api/".toList ++ xs)) := by
    rw [show "openapi.blofin.com/api/".toList
        = "openapi.blofin.com".toList ++ '/' :: "api/".toList from by decide,
      List.append_assoc, List.cons_append]
  have hapi : '/' :: ("api/".toList ++ xs) = "/api/".toList ++ xs := by
    rw [show "/api/".toList = '/' :: "api/".toList from by decide,
      List.cons_append]
  have hhost : takeUntil '/' ("openapi.blofin.com/api/".toList ++ xs)
      = "openapi.blofin.com".toList := by
    rw [hsplit2, takeUntil_append_left (by decide), takeUntil_cons_eq,
      List.append_nil]
  have hpath : dropUntil '/' ("openapi.blofin.com/api/".toList ++ xs)
      = "/api/".toList ++ xs := by
    rw [hsplit2, dropUntil_append_left (by decide), dropUntil_cons_eq, hapi]
  have hunesc : unescapePct ("/api/".toList ++ xs)
      = some ("/api/".toList ++ xs) := by
    apply unescapePct_no_pct
    intro c hc
    rcases List.mem_append.mp hc with h1 | h1
    · exact (by decide : ∀ c ∈ "/api/".toList, c ≠ '%') c h1
    · exact hxpct c h1
  have stage1 : goURLParse (String.mk cs)
      = parseAfterScheme "https".toList
          ("//openapi.blofin.com/api/".toList ++ xs) := by
    unfold goURLParse
    rw [show (String.mk cs).toList = cs from rfl, hctl, hnofrag, hscheme]
    rfl
  have stage2 : parseAfterScheme "https".toList
      ("//openapi.blofin.com/api/".toList ++ xs)
        = parseAuthority "https".toList
            ("openapi.blofin.com/api/".toList ++ xs) [] := by
    unfold parseAfterScheme
    rw [htakeq, hdropq, hrest2]
    rfl
  have stage3 : parseAuthority "https".toList
      ("openapi.blofin.com/api/".toList ++ xs) []
        = some { scheme := "https", host := "openapi.blofin.com",
                 path := String.mk ("/api/".toList ++ xs), rawQuery := "" } := by
    unfold parseAuthority
    rw [hhost, hpath, hunesc,
      if_pos (by decide : ("openapi.blofin.com".toList.all hostCharOk) = true)]
    rfl
  rw [stage1, stage2, stage3]

/-- C1, amended. For an inbound request whose path is the proxy prefix
`/api/` followed by `X` (safe characters) and whose raw query is `Q`, the
reconstructed upstream URL keeps the FULL inbound path `/api/X` (the proxy
prefix is preserved, not stripped) and carries raw query `Q` verbatim. -/
theorem C1_target_url_full_path_and_query (X Q : String)
    (hX : ∀ c ∈ X.toList, urlPathSafeChar c = true) :
    buildTargetURL ("/api/" ++ X) Q
      = some { scheme := "https", host := "openapi.blofin.com",
               path := "/api/" ++ X, rawQuery := Q } := by
  unfold buildTargetURL
  have h1 : BLOFIN_API_BASE ++ ("/api/" ++ X)
      = String.mk ("https://openapi.blofin.com/api/".toList ++ X.toList) := by
    obtain ⟨d⟩ := X
    show String.mk
        ("https://openapi.blofin.com".toList ++ ("/api/".toList ++ d))
      = String.mk ("https://openapi.blofin.com/api/".toList ++ d)
    rw [← List.append_assoc,
      show "https://openapi.blofin.com".toList ++ "/api/".toList
        = "https://openapi.blofin.com/api/".toList from by decide]
  rw [h1, goURLParse_base_append X.toList hX]
  rfl

/-- C1 witness: a concrete market-data request, evaluated through the
amended theorem. -/
theorem C1_target_url_witness :
    buildTargetURL ("/api/" ++ "v1/market/tickers") "instId=BTC-USDT"
      = some { scheme := "https", host := "openapi.blofin.com",
               path := "/api/" ++ "v1/market/tickers",
               rawQuery := "instId=BTC-USDT" } :=
  C1_target_url_full_path_and_query "v1/market/tickers" "instId=BTC-USDT"
    (by decide)

/-- C1 counterexample: for the inbound path `/api/v1` (prefix followed by
`X = v1`) the reconstructed upstream URL path is `/api/v1`, not `v1` as the
claim states: the code concatenates the base with the full inbound path. -/
theorem C1_counterexample :
    (buildTargetURL ("/api/" ++ "v1") "a=1").map GoURL.path ≠ some "v1" := by
  decide

/-! ## Requests, responses, contexts and the two proxy handlers -/

/-- A Go `context.Context`, abstracted to its derivation structure: the
background context, an inbound request context (`r.Context()`), or a
`context.WithTimeout` derivation carrying its parent and its timeout in
seconds. -/
inductive Ctx where
  | background : Ctx
  | inbound : Nat → Ctx
  | withTimeout : Ctx → Nat → Ctx
deriving DecidableEq

/-- Whether `a` is `c` itself or an ancestor of `c` through
`withTimeout` derivations (cancelling `a` cancels `c`). -/
def Ctx.hasAncestor : Ctx → Ctx → Bool
  | .withTimeout p s, a => (Ctx.withTimeout p s == a) || p.hasAncestor a
  | c, a => c == a

/-- The timeout attached at the top derivation step, if any. -/
def Ctx.timeoutSeconds : Ctx → Option Nat
  | .withTimeout _ s => some s
  | _ => none

/-- An inbound HTTP request as the handlers see it: method, decoded path,
raw query, header map (keys already canonicalized by the Go server), and
its cancellation context. -/
structure Request where
  method : String
  path : String
  rawQuery : String
  headers : Header
  ctx : Ctx
deriving DecidableEq

/-- An HTTP response: status code, header map, body. -/
structure Response where
  status : Nat
  headers : Header
  body : String
deriving DecidableEq

/-- An upstream response as returned by `client.Do`. -/
structure UpstreamResponse where
  status : Nat
  headers : Header
  body : String
deriving DecidableEq

deriving instance DecidableEq for Except

/-- Oracle for the two fallible external calls of a handler:
`http.NewRequest` construction and `client.Do` dispatch. -/
structure Oracle where
  newRequestOk : Bool
  dispatch : Except String UpstreamResponse
deriving DecidableEq

/-- Everything observable about one run of a proxy handler: the response
written, the header map attached to the outbound request (when one was
built), the context attached to the outbound request (when one was built),
whether `client.Do` was invoked, whether the dispatch-error detail was
logged, and how much the shared request counter was incremented. -/
structure ProxyResult where
  response : Response
  outboundHeaders : Option Header
  outboundCtx : Option Ctx
  dispatched : Bool
  loggedErrorDetail : Bool
  counterDelta : Nat
deriving DecidableEq

/-- Model of Go `http.Error`: set Content-Type and X-Content-Type-Options
on the response writer, then write the status and the message followed by a
newline. -/
def httpError (w : Header) (msg : String) (code : Nat) : Response :=
  { status := code
    headers := headerSet (headerSet w "Content-Type" "text/plain; charset=utf-8")
      "X-Content-Type-Options" "nosniff"
    body := msg ++ "\n" }

/-- The 30-second `http.Client` timeout of the simple variant (`main.go`
lines 108 to 111). -/
def simpleClientTimeoutSeconds : Nat := 30

/-- The `blofinProxy` handler of `main.go` (lines 76 to 143), run against
response writer `w` (which already carries the CORS headers set by the
middleware). The simple variant builds the outbound request with
`http.NewRequest`, which attaches the background context, ignores the
inbound context, never touches a request counter, and logs dispatch
failures unconditionally. -/
def blofinProxy (w : Header) (r : Request) (o : Oracle) : ProxyResult :=
  match buildTargetURL r.path r.rawQuery with
  | none =>
      { response := httpError w "Invalid URL" 400
        outboundHeaders := none, outboundCtx := none, dispatched := false
        loggedErrorDetail := false, counterDelta := 0 }
  | some _ =>
      if o.newRequestOk then
        match o.dispatch with
        | .error _ =>
            { response := httpError w "Proxy request failed" 502
              outboundHeaders := some (copyHeaders [] r.headers)
              outboundCtx := some Ctx.background, dispatched := true
              loggedErrorDetail := true, counterDelta := 0 }
        | .ok resp =>
            { response := { status := resp.status
                            headers := copyHeaders w resp.headers
                            body := resp.body }
              outboundHeaders := some (copyHeaders [] r.headers)
              outboundCtx := some Ctx.background, dispatched := true
              loggedErrorDetail := false, counterDelta := 0 }
      else
        { response := httpError w "Failed to create proxy request" 500
          outboundHeaders := none, outboundCtx := none, dispatched := false
          loggedErrorDetail := false, counterDelta := 0 }

/-- The `blofinProxyOptimized` handler of the optimized variant (lines 176
to 243 of its file), run against response writer `w`. It increments the
shared request counter unconditionally on entry, derives the outbound
context from the inbound one with a 25-second timeout, and logs dispatch
failures only when the DEBUG environment flag is true. -/
def blofinProxyOptimized (w : Header) (r : Request) (o : Oracle)
    (debug : Bool) : ProxyResult :=
  match buildTargetURL r.path r.rawQuery with
  | none =>
      { response := httpError w "Invalid URL" 400
        outboundHeaders := none, outboundCtx := none, dispatched := false
        loggedErrorDetail := false, counterDelta := 1 }
  | some _ =>
      if o.newRequestOk then
        match o.dispatch with
        | .error _ =>
            { response := httpError w "Proxy request failed" 502
              outboundHeaders := some (copyHeaders [] r.headers)
              outboundCtx := some (Ctx.withTimeout r.ctx 25), dispatched := true
              loggedErrorDetail := debug, counterDelta := 1 }
        | .ok resp =>
            { response := { status := resp.status
                            headers := copyHeaders w resp.headers
                            body := resp.body }
              outboundHeaders := some (copyHeaders [] r.headers)
              outboundCtx := some (Ctx.withTimeout r.ctx 25), dispatched := true
              loggedErrorDetail := false, counterDelta := 1 }
      else
        { response := httpError w "Failed to create proxy request" 500
          outboundHeaders := none, outboundCtx := some (Ctx.withTimeout r.ctx 25)
          dispatched := false, loggedErrorDetail := false, counterDelta := 1 }

/-! ## CORS middleware, mux routing, and the two servers -/

/-- The four CORS headers set by `corsMiddleware` in both variants
(`main.go` lines 29 to 32). -/
def corsSetHeaders (w : Header) : Header :=
  headerSet (headerSet (headerSet (headerSet w
    "Access-Control-Allow-Origin" "*")
    "Access-Control-Allow-Methods" "GET, POST, PUT, PATCH, DELETE, OPTIONS")
    "Access-Control-Allow-Headers"
      "Content-Type, Authorization, ACCESS-KEY, ACCESS-SIGN, ACCESS-TIMESTAMP, ACCESS-NONCE, ACCESS-PASSPHRASE, BROKER-ID")
    "Access-Control-Max-Age" "86400"

/-- `corsMiddleware` from both variants (`main.go` lines 26 to 42): set the
CORS headers on a fresh response writer, answer OPTIONS requests immediately
with status 200 and an empty body, and otherwise run the wrapped handler.
The boolean of the result records whether the forwarder was reached. -/
def corsMiddleware (next : Request → Header → Response × Bool)
    (r : Request) : Response × Bool :=
  let w := corsSetHeaders []
  if r.method = "OPTIONS" then
    ({ status := 200, headers := w, body := "" }, false)
  else next r w

/-- Model of Go `strings.HasPrefix` (byte-wise; coincides with character
lists on the ASCII strings used here). -/
def strStartsWith (s pre : String) : Bool := pre.toList.isPrefixOf s.toList

/-- Model of Go `strings.HasSuffix`. -/
def strEndsWith (s post : String) : Bool := post.toList.isSuffixOf s.toList

/-- Whether a Go 1.21 `ServeMux` pattern matches a path: trailing-slash
patterns match by prefix, others exactly. -/
def patternMatches (pat path : String) : Bool :=
  if strEndsWith pat "/" then strStartsWith path pat else pat == path

/-- The longest registered pattern matching the path (Go `ServeMux.match`). -/
def muxLongestMatch (pats : List String) (path : String) : Option String :=
  pats.foldl (fun best pat =>
    if patternMatches pat path then
      match best with
      | none => some pat
      | some b => if b.length < pat.length then some pat else some b
    else best) none

/-- Outcome of Go `ServeMux` routing: a handler, an implicit redirect to the
slash-terminated sibling pattern, or the built-in not-found handler. -/
inductive Routed where
  | handler : String → Routed
  | redirectSlash : String → Routed
  | notFound : Routed
deriving DecidableEq

/-- Model of Go 1.21 `ServeMux.Handler` for already-clean paths: if the
path itself is not registered but path + "/" is, redirect; otherwise
dispatch to the longest matching pattern, or 404. -/
def muxRoute (pats : List String) (path : String) : Routed :=
  if !pats.contains path && pats.contains (path ++ "/") then
    .redirectSlash (path ++ "/")
  else
    match muxLongestMatch pats path with
    | some pat => .handler pat
    | none => .notFound

/-- Patterns registered by the simple variant (`main.go` lines 45 and 51). -/
def simplePatterns : List String := ["/health", "/"]

/-- Patterns registered by the optimized variant (lines 124, 135 and 153 of
its file). -/
def optimizedPatterns : List String := ["/health", "/metrics", "/api/"]

/-- Model of Go `http.Redirect` with status 301 as used by the mux slash
redirect: a Location header and a small HTML body, without CORS headers. -/
def redirectResponse (loc : String) : Response :=
  { status := 301
    headers := [("Location", [loc]),
                ("Content-Type", ["text/html; charset=utf-8"])]
    body := "<a href=\"" ++ loc ++ "\">Moved Permanently</a>.\n" }

/-- The health handler of the simple variant (`main.go` lines 45 to 48). -/
def healthHandler (now : String) (_r : Request) (w : Header) :
    Response × Bool :=
  ({ status := 200
     headers := headerSet w "Content-Type" "application/json"
     body := "\x7b\"status\":\"ok\",\"timestamp\":\"" ++ now ++ "\"\x7d" },
   false)

/-- The root handler of the simple variant (`main.go` lines 51 to 65):
capability descriptor at the exact root, the proxy for paths under the
proxy prefix, 404 otherwise. -/
def rootHandler (now : String) (o : Oracle) (r : Request) (w : Header) :
    Response × Bool :=
  if r.path = "/" then
    ({ status := 200
       headers := headerSet w "Content-Type" "application/json"
       body := "\x7b\"message\":\"Blofin CORS Proxy\",\"version\":\"1.0\",\"endpoints\":[\"/health\",\"/api/*\"],\"timestamp\":\"" ++ now ++ "\"\x7d" },
     false)
  else if strStartsWith r.path "/api/" then
    ((blofinProxy w r o).response, true)
  else
    (httpError w "404 page not found" 404, false)

/-- The whole simple-variant server (`main.go` `main`): route through the
mux with patterns `/health` and `/`, every registered handler wrapped in
the CORS middleware. The boolean records whether the forwarder ran. -/
def simpleServe (now : String) (o : Oracle) (r : Request) :
    Response × Bool :=
  match muxRoute simplePatterns r.path with
  | .handler pat =>
      if pat = "/health" then corsMiddleware (healthHandler now) r
      else corsMiddleware (rootHandler now o) r
  | .redirectSlash loc => (redirectResponse loc, false)
  | .notFound => (httpError [] "404 page not found" 404, false)

/-- The health handler of the optimized variant (lines 124 to 132 of its
file). -/
def healthHandlerOptimized (now : String) (count : Nat) (gor : Nat)
    (_r : Request) (w : Header) : Response × Bool :=
  ({ status := 200
     headers := headerSet w "Content-Type" "application/json"
     body := "\x7b\"status\":\"ok\",\"timestamp\":\"" ++ now
       ++ "\",\"requests_served\":" ++ toString count
       ++ ",\"goroutines\":" ++ toString gor ++ "\x7d" },
   false)

/-- The metrics handler of the optimized variant (lines 135 to 150 of its
file); the memory statistics are abstracted as a preformatted JSON tail. -/
def metricsHandler (count : Nat) (stats : String) (_r : Request)
    (w : Header) : Response × Bool :=
  ({ status := 200
     headers := headerSet w "Content-Type" "application/json"
     body := "\x7b\"requests_total\":" ++ toString count ++ stats ++ "\x7d" },
   false)

/-- The whole optimized-variant server (its `main`): route through the mux
with patterns `/health`, `/metrics` and `/api/`; only the registered
handlers are wrapped in the CORS middleware, so the mux redirect and the
built-in 404 bypass it. -/
def optimizedServe (now : String) (count gor : Nat) (stats : String)
    (o : Oracle) (debug : Bool) (r : Request) : Response × Bool :=
  match muxRoute optimizedPatterns r.path with
  | .handler pat =>
      if pat = "/health" then
        corsMiddleware (healthHandlerOptimized now count gor) r
      else if pat = "/metrics" then
        corsMiddleware (metricsHandler count stats) r
      else
        corsMiddleware
          (fun r w => ((blofinProxyOptimized w r o debug).response, true)) r
  | .redirectSlash loc => (redirectResponse loc, false)
  | .notFound => (httpError [] "404 page not found" 404, false)

/-! ## Claims C2, C3, C9: header filtering and forwarding -/

/-- Case-insensitive absence of a header name from a header map. -/
def headerAbsentCI (h : Header) (n : String) : Prop :=
  ∀ p ∈ h, lowerStr p.1 ≠ lowerStr n

theorem copyHeaders_absent_of_hop {dst src : Header} {n : String}
    (hn : isHopByHopHeader n = true)
    (hdst : ∀ p ∈ dst, lowerStr p.1 ≠ lowerStr n) :
    headerAbsentCI (copyHeaders dst src) n := by
  intro p hp heq
  have hk : p.1 ∈ (copyHeaders dst src).map Prod.fst :=
    List.mem_map_of_mem Prod.fst hp
  rcases mem_keys_copyHeaders hk with h1 | h1
  · obtain ⟨p0, hp0, he0⟩ := List.mem_map.mp h1
    exact hdst p0 hp0 (by rw [he0]; exact heq)
  · obtain ⟨q, _, hqf, hqe⟩ := h1
    have h2 : lowerStr q.1 = lowerStr n := by
      rw [← lowerStr_canonicalMIMEHeaderKey q.1, ← hqe]
      exact heq
    have h3 : isHopByHopHeader q.1 = true := by
      rw [isHopByHopHeader_lowerStr_congr h2]
      exact hn
    rw [hqf] at h3
    exact absurd h3 (by simp)

/-- C2. Every hop-by-hop header name, in any casing, is absent both from
the outbound request headers (built by the forward copy loop from the
inbound headers) and from the headers relayed to the client (built by the
response copy loop on top of the CORS headers set by the middleware). -/
theorem C2_hop_headers_stripped (inH upH : Header) (n : String)
    (hn : isHopByHopHeader n = true) :
    headerAbsentCI (copyHeaders [] inH) n ∧
    headerAbsentCI (copyHeaders (corsSetHeaders []) upH) n := by
  constructor
  · exact copyHeaders_absent_of_hop hn (by intro p hp; cases hp)
  · refine copyHeaders_absent_of_hop hn ?_
    have hmem := lowerStr_mem_of_isHop hn
    have hcors : ∀ s ∈ hopByHopHeaders.map lowerStr,
        ∀ p ∈ corsSetHeaders [], lowerStr p.1 ≠ s := by decide
    exact fun p hp heq => hcors (lowerStr n) hmem p hp heq

/-- C2 witness: a mixed-case Connection header is stripped in both
directions on concrete header maps. -/
theorem C2_hop_headers_witness :
    headerAbsentCI
      (copyHeaders [] [("Connection", ["keep-alive"]), ("Access-Key", ["abc"])])
      "cOnNeCtIoN" ∧
    headerAbsentCI
      (copyHeaders (corsSetHeaders [])
        [("Transfer-Encoding", ["chunked"]),
         ("Content-Type", ["application/json"])])
      "cOnNeCtIoN" :=
  C2_hop_headers_stripped
    [("Connection", ["keep-alive"]), ("Access-Key", ["abc"])]
    [("Transfer-Encoding", ["chunked"]), ("Content-Type", ["application/json"])]
    "cOnNeCtIoN" (by decide)

theorem contrib_eq_nil (k : String) (src : Header)
    (h : ∀ q ∈ src, canonicalMIMEHeaderKey k ≠ canonicalMIMEHeaderKey q.1) :
    contrib k src = [] := by
  induction src with
  | nil => rfl
  | cons q rest ih =>
      rw [contrib_cons, if_neg (fun hc => h q (List.mem_cons_self q rest) hc.2),
        List.nil_append]
      exact ih (fun q' hq' => h q' (List.mem_cons_of_mem _ hq'))

theorem contrib_of_canonical_nodup (k : String) (vs : List String)
    (hhop : isHopByHopHeader k = false) :
    ∀ src : Header, (∀ p ∈ src, canonicalMIMEHeaderKey p.1 = p.1) →
      (src.map Prod.fst).Nodup → (k, vs) ∈ src → contrib k src = vs := by
  intro src
  induction src with
  | nil =>
      intro _ _ hmem
      cases hmem
  | cons p rest ih =>
      intro hcanon hnodup hmem
      rw [List.map_cons, List.nodup_cons] at hnodup
      rw [contrib_cons]
      rcases List.mem_cons.mp hmem with he | hm
      · have hpk : p = (k, vs) := he.symm
        subst hpk
        have hck : canonicalMIMEHeaderKey k = k :=
          hcanon (k, vs) (List.mem_cons_self _ _)
        rw [if_pos ⟨hhop, rfl⟩]
        have hnil : contrib k rest = [] := by
          apply contrib_eq_nil
          intro q hq hce
          have hcq : canonicalMIMEHeaderKey q.1 = q.1 :=
            hcanon q (List.mem_cons_of_mem _ hq)
          rw [hck, hcq] at hce
          have hqm : q.1 ∈ rest.map Prod.fst :=
            List.mem_map_of_mem Prod.fst hq
          rw [← hce] at hqm
          exact hnodup.1 hqm
        rw [hnil, List.append_nil]
      · have hck : canonicalMIMEHeaderKey k = k :=
          hcanon (k, vs) (List.mem_cons_of_mem _ hm)
        have hcp : canonicalMIMEHeaderKey p.1 = p.1 :=
          hcanon p (List.mem_cons_self _ _)
        have hcond : ¬ (isHopByHopHeader p.1 = false ∧
            canonicalMIMEHeaderKey k = canonicalMIMEHeaderKey p.1) := by
          intro hc
          have hkp : k = p.1 := by rw [← hck, ← hcp]; exact hc.2
          have : k ∈ rest.map Prod.fst := by
            have := List.mem_map_of_mem Prod.fst hm
            simpa using this
          rw [hkp] at this
          exact hnodup.1 this
        rw [if_neg hcond, List.nil_append]
        exact ih (fun q hq => hcanon q (List.mem_cons_of_mem _ hq))
          hnodup.2 hm

/-- C3. For an inbound header map with canonical, pairwise-distinct keys
(the invariant the Go server establishes when parsing a request), every
non-hop-by-hop entry reaches the outbound request under the same key with
exactly the same value slice, order and multiplicity included. -/
theorem C3_inbound_values_preserved (inH : Header)
    (hcanon : ∀ p ∈ inH, canonicalMIMEHeaderKey p.1 = p.1)
    (hnodup : (inH.map Prod.fst).Nodup)
    (k : String) (vs : List String)
    (hmem : (k, vs) ∈ inH)
    (hhop : isHopByHopHeader k = false) :
    headerValues (copyHeaders [] inH) k = vs := by
  rw [headerValues_copyHeaders,
    show headerValues ([] : Header) k = [] from rfl, List.nil_append]
  exact contrib_of_canonical_nodup k vs hhop inH hcanon hnodup hmem

/-- C3 witness: a two-value authentication header and a Content-Type header
pass through with values, order and multiplicity intact. -/
theorem C3_inbound_values_witness :
    headerValues
      (copyHeaders []
        [("Content-Type", ["application/json"]),
         ("Access-Key", ["first", "second"])])
      "Access-Key" = ["first", "second"] :=
  C3_inbound_values_preserved
    [("Content-Type", ["application/json"]),
     ("Access-Key", ["first", "second"])]
    (by decide) (by decide) "Access-Key" ["first", "second"]
    (by decide) (by decide)

/-- C9. Every header name on the outbound request built by the forward copy
loop is a fixed point of Go canonical MIME key normalization (first letter
and each letter after a hyphen upper-case, the rest lower-case); moreover
canonicalization is idempotent, so a wire name of any casing, canonicalized
once by the Go server on read, appears outbound exactly in canonical form
rather than byte-for-byte as the client sent it. -/
theorem C9_outbound_names_canonical (inH : Header) (k : String) :
    (∀ p ∈ copyHeaders [] inH, canonicalMIMEHeaderKey p.1 = p.1) ∧
    canonicalMIMEHeaderKey (canonicalMIMEHeaderKey k)
      = canonicalMIMEHeaderKey k := by
  constructor
  · intro p hp
    have hk : p.1 ∈ (copyHeaders [] inH).map Prod.fst :=
      List.mem_map_of_mem Prod.fst hp
    rcases mem_keys_copyHeaders hk with h1 | h1
    · cases h1
    · obtain ⟨q, _, _, he⟩ := h1
      rw [he, canonicalMIMEHeaderKey_idem]
  · exact canonicalMIMEHeaderKey_idem k

/-- C9 witness: the client casing access-key is rewritten to the canonical
form Access-Key on the outbound request and is not preserved
byte-for-byte. -/
theorem C9_outbound_names_witness :
    (∀ p ∈ copyHeaders [] [(canonicalMIMEHeaderKey "access-key", ["v"])],
      canonicalMIMEHeaderKey p.1 = p.1) ∧
    canonicalMIMEHeaderKey "access-key" = "Access-Key" ∧
    ("Access-Key" : String) ≠ "access-key" :=
  ⟨(C9_outbound_names_canonical
      [(canonicalMIMEHeaderKey "access-key", ["v"])] "access-key").1,
   by decide, by decide⟩

/-! ## Claims C5, C6, C7: dispatch failure, counter, deadline -/

/-- C5, amended. On dispatch failure both variants return HTTP 502 with the
fixed generic body (independent of the error, so no error detail leaks);
the optimized variant logs the error detail exactly when the DEBUG flag is
set, while the simple variant logs it unconditionally, with no debug
gate. -/
theorem C5_dispatch_failure_502 (w : Header) (r : Request) (o : Oracle)
    (err : String) (debug : Bool)
    (hurl : (buildTargetURL r.path r.rawQuery).isSome = true)
    (hok : o.newRequestOk = true)
    (herr : o.dispatch = Except.error err) :
    ((blofinProxy w r o).response.status = 502 ∧
     (blofinProxy w r o).response.body = "Proxy request failed\n" ∧
     (blofinProxy w r o).loggedErrorDetail = true) ∧
    ((blofinProxyOptimized w r o debug).response.status = 502 ∧
     (blofinProxyOptimized w r o debug).response.body
       = "Proxy request failed\n" ∧
     (blofinProxyOptimized w r o debug).loggedErrorDetail = debug) := by
  obtain ⟨u, hu⟩ := Option.isSome_iff_exists.mp hurl
  unfold blofinProxy blofinProxyOptimized
  simp only [hu, hok, herr, if_true, httpError]
  exact ⟨⟨trivial, by decide, trivial⟩, trivial, by decide, trivial⟩

/-- C5 witness: concrete dispatch failure with the debug flag off. -/
theorem C5_dispatch_failure_witness :
    (blofinProxy (corsSetHeaders [])
      { method := "GET", path := "/api/v1", rawQuery := "", headers := [],
        ctx := Ctx.inbound 0 }
      { newRequestOk := true,
        dispatch := Except.error "connection refused" }).loggedErrorDetail
      = true ∧
    (blofinProxyOptimized (corsSetHeaders [])
      { method := "GET", path := "/api/v1", rawQuery := "", headers := [],
        ctx := Ctx.inbound 0 }
      { newRequestOk := true,
        dispatch := Except.error "connection refused" }
      false).loggedErrorDetail = false := by
  have h := C5_dispatch_failure_502 (corsSetHeaders [])
    { method := "GET", path := "/api/v1", rawQuery := "", headers := [],
      ctx := Ctx.inbound 0 }
    { newRequestOk := true, dispatch := Except.error "connection refused" }
    "connection refused" false (by decide) (by decide) (by decide)
  exact ⟨h.1.2.2, h.2.2.2⟩

/-- C5 counterexample: the simple variant logs the dispatch-error detail
even though no debug flag is enabled (it never consults the DEBUG
environment variable), contradicting logged-iff-debug. -/
theorem C5_counterexample :
    ¬ ((blofinProxy (corsSetHeaders [])
      { method := "GET", path := "/api/v1", rawQuery := "", headers := [],
        ctx := Ctx.inbound 0 }
      { newRequestOk := true,
        dispatch := Except.error "connection refused" }).loggedErrorDetail
        = false) := by
  decide

/-- C6, amended. The optimized handler increments the shared request
counter exactly once on entry of every run, regardless of how the run ends;
in particular a run that fails before dispatch still counts. -/
theorem C6_counter_incremented_every_run (w : Header) (r : Request)
    (o : Oracle) (debug : Bool) :
    (blofinProxyOptimized w r o debug).counterDelta = 1 := by
  unfold blofinProxyOptimized
  split
  · rfl
  · split
    · split <;> rfl
    · rfl

/-- C6 counterexample: a request whose URL build fails (control byte in the
path) never reaches dispatch yet still increments the counter by one,
contradicting increments-iff-dispatched. -/
theorem C6_counterexample :
    (blofinProxyOptimized (corsSetHeaders [])
      { method := "GET", path := "/api/" ++ String.mk [Char.ofNat 0],
        rawQuery := "", headers := [], ctx := Ctx.inbound 0 }
      { newRequestOk := true, dispatch := Except.error "unreachable" }
      false).dispatched = false ∧
    ¬ ((blofinProxyOptimized (corsSetHeaders [])
      { method := "GET", path := "/api/" ++ String.mk [Char.ofNat 0],
        rawQuery := "", headers := [], ctx := Ctx.inbound 0 }
      { newRequestOk := true, dispatch := Except.error "unreachable" }
      false).counterDelta = 0) := by
  decide

theorem Ctx.hasAncestor_self (c : Ctx) : Ctx.hasAncestor c c = true := by
  cases c <;> simp [Ctx.hasAncestor]

/-- C7, amended. Whenever the outbound request is built, the optimized
variant attaches a context derived from the inbound request context by a
25-second timeout (25 is within the 25 to 30 ceiling), so inbound
cancellation propagates to the outbound call; the simple variant attaches
the background context, which is not derived from the inbound context, and
bounds the call only by its fixed 30-second client timeout. -/
theorem C7_outbound_deadline (w : Header) (r : Request) (o : Oracle)
    (debug : Bool)
    (hurl : (buildTargetURL r.path r.rawQuery).isSome = true)
    (hok : o.newRequestOk = true) :
    (blofinProxyOptimized w r o debug).outboundCtx
        = some (Ctx.withTimeout r.ctx 25) ∧
    Ctx.hasAncestor (Ctx.withTimeout r.ctx 25) r.ctx = true ∧
    Ctx.timeoutSeconds (Ctx.withTimeout r.ctx 25) = some 25 ∧
    (25 ≤ 25 ∧ 25 ≤ 30) ∧
    (blofinProxy w r o).outboundCtx = some Ctx.background ∧
    simpleClientTimeoutSeconds = 30 := by
  obtain ⟨u, hu⟩ := Option.isSome_iff_exists.mp hurl
  have hanc : Ctx.hasAncestor (Ctx.withTimeout r.ctx 25) r.ctx = true := by
    unfold Ctx.hasAncestor
    rw [Ctx.hasAncestor_self, Bool.or_true]
  refine ⟨?_, hanc, rfl, ⟨le_refl 25, by omega⟩, ?_, rfl⟩
  · unfold blofinProxyOptimized
    simp only [hu, hok, if_true]
    rcases o.dispatch with e | resp <;> rfl
  · unfold blofinProxy
    simp only [hu, hok, if_true]
    rcases o.dispatch with e | resp <;> rfl

/-- C7 witness: concrete successful dispatch; the optimized outbound
context descends from the inbound context, the simple one does not. -/
theorem C7_outbound_deadline_witness :
    (blofinProxyOptimized (corsSetHeaders [])
      { method := "GET", path := "/api/v1", rawQuery := "", headers := [],
        ctx := Ctx.inbound 7 }
      { newRequestOk := true,
        dispatch := Except.ok { status := 200, headers := [], body := "\x7b\x7d" } }
      false).outboundCtx = some (Ctx.withTimeout (Ctx.inbound 7) 25) ∧
    Ctx.hasAncestor (Ctx.withTimeout (Ctx.inbound 7) 25) (Ctx.inbound 7)
      = true := by
  have h := C7_outbound_deadline (corsSetHeaders [])
    { method := "GET", path := "/api/v1", rawQuery := "", headers := [],
      ctx := Ctx.inbound 7 }
    { newRequestOk := true,
      dispatch := Except.ok { status := 200, headers := [], body := "\x7b\x7d" } }
    false (by decide) (by decide)
  exact ⟨h.1, h.2.1⟩

/-- C7 counterexample: in the simple variant the outbound request carries
the background context, which does not descend from the inbound request
context and carries no deadline itself, so the outbound deadline is not
derived from the inbound cancellation context. -/
theorem C7_counterexample :
    (blofinProxy (corsSetHeaders [])
      { method := "GET", path := "/api/v1", rawQuery := "", headers := [],
        ctx := Ctx.inbound 0 }
      { newRequestOk := true,
        dispatch := Except.error "timeout" }).outboundCtx
      = some Ctx.background ∧
    Ctx.hasAncestor Ctx.background (Ctx.inbound 0) = false ∧
    Ctx.timeoutSeconds Ctx.background = none := by
  decide


/-! ## Routing lemmas for claims C4, C8, C10 -/

theorem append_slash_ne_health (path : String) : path ++ "/" ≠ "/health" := by
  intro he
  have h1 : (path ++ "/").data.getLast? = some '/' := by
    rw [show (path ++ "/").data = path.data ++ ['/'] from rfl]
    exact List.getLast?_concat _
  rw [he] at h1
  exact absurd h1 (by decide)

theorem append_slash_eq_root {path : String} (he : path ++ "/" = "/") :
    path = "" := by
  obtain ⟨d⟩ := path
  have h1 : d ++ ['/'] = ['/'] := congrArg String.data he
  have h2 : d = [] := by
    cases d with
    | nil => rfl
    | cons c cs =>
        have h3 := congrArg List.length h1
        simp only [List.length_append, List.length_cons] at h3
        omega
  subst h2
  rfl

/-- Every path that starts with a slash is routed by the simple-variant mux
to one of its two registered handlers: the mux never produces a redirect or
its built-in 404 there. -/
theorem muxRoute_simple_total (path : String)
    (hp : strStartsWith path "/" = true) :
    muxRoute simplePatterns path = Routed.handler "/health" ∨
    muxRoute simplePatterns path = Routed.handler "/" := by
  by_cases h1 : path = "/health"
  · subst h1
    left
    decide
  · by_cases h2 : path = "/"
    · subst h2
      right
      decide
    · right
      have hc2 : simplePatterns.contains (path ++ "/") = false := by
        show simplePatterns.elem (path ++ "/") = false
        rw [List.elem_eq_mem, decide_eq_false_iff_not]
        intro hm
        rcases List.mem_cons.mp hm with h | h
        · exact append_slash_ne_health path h
        · have h' : path ++ "/" = "/" := by simpa using h
          have h0 := append_slash_eq_root h'
          subst h0
          exact absurd hp (by decide)
      have hm1 : patternMatches "/health" path = false := by
        unfold patternMatches
        rw [if_neg (by decide : ¬ ((strEndsWith "/health" "/") = true))]
        exact beq_eq_false_iff_ne.mpr (fun he => h1 he.symm)
      have hm2 : patternMatches "/" path = true := by
        unfold patternMatches
        rw [if_pos (by decide : (strEndsWith "/" "/") = true)]
        exact hp
      have hlm : muxLongestMatch simplePatterns path = some "/" := by
        unfold muxLongestMatch simplePatterns
        rw [List.foldl_cons, List.foldl_cons, List.foldl_nil, hm1,
          if_neg (by decide : ¬ (false = true)), hm2, if_pos rfl]
      unfold muxRoute
      rw [hc2, Bool.and_false, if_neg (by decide : ¬ (false = true)), hlm]

/-- A mux decision for a handler comes from the longest-match search. -/
theorem muxRoute_handler_longest {pats : List String} {path pat : String}
    (h : muxRoute pats path = Routed.handler pat) :
    muxLongestMatch pats path = some pat := by
  unfold muxRoute at h
  by_cases hc : (!pats.contains path && pats.contains (path ++ "/")) = true
  · rw [if_pos hc] at h
    exact absurd h (by simp)
  · rw [if_neg hc] at h
    rcases hl : muxLongestMatch pats path with _ | b
    · rw [hl] at h
      exact absurd h (by simp)
    · rw [hl] at h
      cases h
      rfl

/-- The longest-match search only returns registered, matching patterns. -/
theorem muxLongestMatch_mem_matches (pats : List String) (path : String) :
    ∀ (acc : Option String) (pat : String),
      pats.foldl (fun best pat =>
        if patternMatches pat path then
          match best with
          | none => some pat
          | some b => if b.length < pat.length then some pat else some b
        else best) acc = some pat →
      acc = some pat ∨ (pat ∈ pats ∧ patternMatches pat path = true) := by
  induction pats with
  | nil =>
      intro acc pat h
      exact Or.inl h
  | cons p rest ih =>
      intro acc pat h
      rw [List.foldl_cons] at h
      rcases ih _ pat h with h1 | h1
      · by_cases hm : patternMatches p path = true
        · rw [if_pos hm] at h1
          rcases acc with _ | b
          · right
            have he : p = pat := by simpa using h1
            rw [← he]
            exact ⟨List.mem_cons_self _ _, hm⟩
          · replace h1 : (if b.length < p.length then some p else some b)
                = some pat := h1
            by_cases hl : b.length < p.length
            · rw [if_pos hl] at h1
              right
              have he : p = pat := by simpa using h1
              rw [← he]
              exact ⟨List.mem_cons_self _ _, hm⟩
            · rw [if_neg hl] at h1
              exact Or.inl h1
        · have hm2 : patternMatches p path = false := by simpa using hm
          rw [hm2, if_neg (by decide : ¬ (false = true))] at h1
          exact Or.inl h1
      · exact Or.inr ⟨List.mem_cons_of_mem _ h1.1, h1.2⟩

theorem muxLongestMatch_spec {pats : List String} {path pat : String}
    (h : muxLongestMatch pats path = some pat) :
    pat ∈ pats ∧ patternMatches pat path = true := by
  unfold muxLongestMatch at h
  rcases muxLongestMatch_mem_matches pats path none pat h with h1 | h1
  · exact absurd h1 (by simp)
  · exact h1

/-! ## CORS presence of responses (claims C4 and C8) -/

/-- The response carries the wildcard allow-origin header and declares the
method set GET, POST, PUT, PATCH, DELETE, OPTIONS. -/
def corsPresent (h : Header) : Prop :=
  "*" ∈ headerValues h "Access-Control-Allow-Origin" ∧
  "GET, POST, PUT, PATCH, DELETE, OPTIONS"
    ∈ headerValues h "Access-Control-Allow-Methods"

instance (h : Header) : Decidable (corsPresent h) := by
  unfold corsPresent
  infer_instance

theorem mem_headerValues_copyHeaders {dst : Header} {q v0 : String}
    (src : Header) (hv : v0 ∈ headerValues dst q) :
    v0 ∈ headerValues (copyHeaders dst src) q := by
  rw [headerValues_copyHeaders]
  exact List.mem_append_left _ hv

theorem mem_headerValues_headerSet {h : Header} {q v0 : String} (k v : String)
    (hne : canonicalMIMEHeaderKey q ≠ canonicalMIMEHeaderKey k)
    (hv : v0 ∈ headerValues h q) :
    v0 ∈ headerValues (headerSet h k v) q := by
  rw [headerValues_headerSet, if_neg hne]
  exact hv

theorem corsPresent_headerSet {h : Header} (k v : String)
    (h1 : canonicalMIMEHeaderKey "Access-Control-Allow-Origin"
        ≠ canonicalMIMEHeaderKey k)
    (h2 : canonicalMIMEHeaderKey "Access-Control-Allow-Methods"
        ≠ canonicalMIMEHeaderKey k)
    (hc : corsPresent h) : corsPresent (headerSet h k v) :=
  ⟨mem_headerValues_headerSet k v h1 hc.1,
   mem_headerValues_headerSet k v h2 hc.2⟩

theorem corsPresent_copyHeaders {h : Header} (src : Header)
    (hc : corsPresent h) : corsPresent (copyHeaders h src) :=
  ⟨mem_headerValues_copyHeaders src hc.1,
   mem_headerValues_copyHeaders src hc.2⟩

theorem corsPresent_httpError {h : Header} (msg : String) (code : Nat)
    (hc : corsPresent h) : corsPresent (httpError h msg code).headers := by
  unfold httpError
  exact corsPresent_headerSet _ _ (by decide) (by decide)
    (corsPresent_headerSet _ _ (by decide) (by decide) hc)

theorem corsPresent_base : corsPresent (corsSetHeaders []) := by decide

theorem corsPresent_blofinProxy (w : Header) (r : Request) (o : Oracle)
    (hc : corsPresent w) :
    corsPresent (blofinProxy w r o).response.headers := by
  unfold blofinProxy
  split
  · exact corsPresent_httpError _ _ hc
  · split
    · split
      · exact corsPresent_httpError _ _ hc
      · exact corsPresent_copyHeaders _ hc
    · exact corsPresent_httpError _ _ hc

theorem corsPresent_blofinProxyOptimized (w : Header) (r : Request)
    (o : Oracle) (debug : Bool) (hc : corsPresent w) :
    corsPresent (blofinProxyOptimized w r o debug).response.headers := by
  unfold blofinProxyOptimized
  split
  · exact corsPresent_httpError _ _ hc
  · split
    · split
      · exact corsPresent_httpError _ _ hc
      · exact corsPresent_copyHeaders _ hc
    · exact corsPresent_httpError _ _ hc

/-- C8, amended. Every response of the simple-variant server (including its
404 for unknown routes and the forwarder errors 400, 500, 502) carries the
wildcard allow-origin header and declares the method set GET, POST, PUT,
PATCH, DELETE, OPTIONS; in the optimized variant this holds for every
response produced through a registered handler, but not for the responses
the mux itself produces (its built-in 404 and its slash redirect), which
bypass the CORS middleware. -/
theorem C8_cors_on_responses (now : String) (count gor : Nat) (stats : String)
    (o : Oracle) (debug : Bool) (r : Request)
    (hp : strStartsWith r.path "/" = true) :
    corsPresent (simpleServe now o r).1.headers ∧
    (∀ pat, muxRoute optimizedPatterns r.path = Routed.handler pat →
      corsPresent (optimizedServe now count gor stats o debug r).1.headers)
    := by
  constructor
  · unfold simpleServe
    rcases muxRoute_simple_total r.path hp with h | h
    · rw [h]
      show corsPresent (corsMiddleware (healthHandler now) r).1.headers
      simp only [corsMiddleware]
      split
      · exact corsPresent_base
      · unfold healthHandler
        exact corsPresent_headerSet "Content-Type" "application/json"
          (by decide) (by decide) corsPresent_base
    · rw [h]
      show corsPresent (corsMiddleware (rootHandler now o) r).1.headers
      simp only [corsMiddleware]
      split
      · exact corsPresent_base
      · unfold rootHandler
        split
        · exact corsPresent_headerSet "Content-Type" "application/json"
            (by decide) (by decide) corsPresent_base
        · split
          · exact corsPresent_blofinProxy _ _ _ corsPresent_base
          · exact corsPresent_httpError _ _ corsPresent_base
  · intro pat hpat
    have hspec := muxLongestMatch_spec (muxRoute_handler_longest hpat)
    have hmem : pat = "/health" ∨ pat = "/metrics" ∨ pat = "/api/" := by
      simpa [optimizedPatterns] using hspec.1
    unfold optimizedServe
    rw [hpat]
    rcases hmem with he | he | he
    · subst he
      show corsPresent
        (corsMiddleware (healthHandlerOptimized now count gor) r).1.headers
      simp only [corsMiddleware]
      split
      · exact corsPresent_base
      · unfold healthHandlerOptimized
        exact corsPresent_headerSet "Content-Type" "application/json"
          (by decide) (by decide) corsPresent_base
    · subst he
      show corsPresent
        (corsMiddleware (metricsHandler count stats) r).1.headers
      simp only [corsMiddleware]
      split
      · exact corsPresent_base
      · unfold metricsHandler
        exact corsPresent_headerSet "Content-Type" "application/json"
          (by decide) (by decide) corsPresent_base
    · subst he
      show corsPresent (corsMiddleware
        (fun r w => ((blofinProxyOptimized w r o debug).response, true))
        r).1.headers
      simp only [corsMiddleware]
      split
      · exact corsPresent_base
      · exact corsPresent_blofinProxyOptimized _ _ _ _ corsPresent_base

/-- C8 witness: CORS headers on a simple-variant 404 and on an optimized
proxied response. -/
theorem C8_cors_witness :
    corsPresent ((simpleServe "t"
      { newRequestOk := true, dispatch := Except.error "e" }
      { method := "GET", path := "/nope", rawQuery := "", headers := [],
        ctx := Ctx.inbound 0 }).1.headers) ∧
    corsPresent ((optimizedServe "t" 0 0 ""
      { newRequestOk := true, dispatch := Except.error "e" } false
      { method := "GET", path := "/api/v1", rawQuery := "", headers := [],
        ctx := Ctx.inbound 0 }).1.headers) := by
  have h1 := C8_cors_on_responses "t" 0 0 ""
    { newRequestOk := true, dispatch := Except.error "e" } false
    { method := "GET", path := "/nope", rawQuery := "", headers := [],
      ctx := Ctx.inbound 0 } (by decide)
  have h2 := C8_cors_on_responses "t" 0 0 ""
    { newRequestOk := true, dispatch := Except.error "e" } false
    { method := "GET", path := "/api/v1", rawQuery := "", headers := [],
      ctx := Ctx.inbound 0 } (by decide)
  exact ⟨h1.1, h2.2 "/api/" (by decide)⟩

/-- C8 counterexample: in the optimized variant, the mux built-in 404 for
an unknown route carries neither the wildcard allow-origin header nor the
method list, because no catch-all handler is registered and the CORS
middleware only wraps registered handlers. -/
theorem C8_counterexample :
    ¬ corsPresent ((optimizedServe "t" 0 0 ""
      { newRequestOk := true, dispatch := Except.error "e" } false
      { method := "GET", path := "/foo", rawQuery := "", headers := [],
        ctx := Ctx.inbound 0 }).1.headers) := by
  decide


theorem corsMiddleware_options (next : Request → Header → Response × Bool)
    (r : Request) (hm : r.method = "OPTIONS") :
    corsMiddleware next r
      = ({ status := 200, headers := corsSetHeaders [], body := "" }, false)
    := by
  simp only [corsMiddleware, hm, if_true]

/-- C4, amended. Every OPTIONS request that reaches a registered handler is
answered by the CORS middleware with status 200, an empty body and the CORS
headers, without reaching the forwarder. In the simple variant every path
(starting with a slash) reaches a registered handler, so this holds
regardless of path there; in the optimized variant it holds exactly for the
paths the mux routes to a handler, while unknown paths get the mux 404 and
bare `/api` gets the mux redirect, both of which bypass the middleware. -/
theorem C4_options_preflight (now : String) (count gor : Nat) (stats : String)
    (o : Oracle) (debug : Bool) (r : Request)
    (hm : r.method = "OPTIONS") :
    (strStartsWith r.path "/" = true →
      (simpleServe now o r).1.status = 200 ∧
      (simpleServe now o r).1.body = "" ∧
      corsPresent (simpleServe now o r).1.headers ∧
      (simpleServe now o r).2 = false) ∧
    (∀ pat, muxRoute optimizedPatterns r.path = Routed.handler pat →
      (optimizedServe now count gor stats o debug r).1.status = 200 ∧
      (optimizedServe now count gor stats o debug r).1.body = "" ∧
      corsPresent (optimizedServe now count gor stats o debug r).1.headers ∧
      (optimizedServe now count gor stats o debug r).2 = false) := by
  constructor
  · intro hp
    unfold simpleServe
    rcases muxRoute_simple_total r.path hp with h | h
    · rw [h]
      show (corsMiddleware (healthHandler now) r).1.status = 200 ∧
        (corsMiddleware (healthHandler now) r).1.body = "" ∧
        corsPresent (corsMiddleware (healthHandler now) r).1.headers ∧
        (corsMiddleware (healthHandler now) r).2 = false
      rw [corsMiddleware_options _ _ hm]
      exact ⟨rfl, rfl, corsPresent_base, rfl⟩
    · rw [h]
      show (corsMiddleware (rootHandler now o) r).1.status = 200 ∧
        (corsMiddleware (rootHandler now o) r).1.body = "" ∧
        corsPresent (corsMiddleware (rootHandler now o) r).1.headers ∧
        (corsMiddleware (rootHandler now o) r).2 = false
      rw [corsMiddleware_options _ _ hm]
      exact ⟨rfl, rfl, corsPresent_base, rfl⟩
  · intro pat hpat
    have hspec := muxLongestMatch_spec (muxRoute_handler_longest hpat)
    have hmem : pat = "/health" ∨ pat = "/metrics" ∨ pat = "/api/" := by
      simpa [optimizedPatterns] using hspec.1
    unfold optimizedServe
    rw [hpat]
    rcases hmem with he | he | he
    · subst he
      show (corsMiddleware (healthHandlerOptimized now count gor) r).1.status
          = 200 ∧
        (corsMiddleware (healthHandlerOptimized now count gor) r).1.body
          = "" ∧
        corsPresent
          (corsMiddleware (healthHandlerOptimized now count gor) r).1.headers ∧
        (corsMiddleware (healthHandlerOptimized now count gor) r).2 = false
      rw [corsMiddleware_options _ _ hm]
      exact ⟨rfl, rfl, corsPresent_base, rfl⟩
    · subst he
      show (corsMiddleware (metricsHandler count stats) r).1.status = 200 ∧
        (corsMiddleware (metricsHandler count stats) r).1.body = "" ∧
        corsPresent (corsMiddleware (metricsHandler count stats) r).1.headers ∧
        (corsMiddleware (metricsHandler count stats) r).2 = false
      rw [corsMiddleware_options _ _ hm]
      exact ⟨rfl, rfl, corsPresent_base, rfl⟩
    · subst he
      show (corsMiddleware
          (fun r w => ((blofinProxyOptimized w r o debug).response, true))
          r).1.status = 200 ∧
        (corsMiddleware
          (fun r w => ((blofinProxyOptimized w r o debug).response, true))
          r).1.body = "" ∧
        corsPresent (corsMiddleware
          (fun r w => ((blofinProxyOptimized w r o debug).response, true))
          r).1.headers ∧
        (corsMiddleware
          (fun r w => ((blofinProxyOptimized w r o debug).response, true))
          r).2 = false
      rw [corsMiddleware_options _ _ hm]
      exact ⟨rfl, rfl, corsPresent_base, rfl⟩

/-- C4 witness: concrete OPTIONS preflight to an api path in both
variants. -/
theorem C4_options_witness :
    (simpleServe "t" { newRequestOk := true, dispatch := Except.error "e" }
      { method := "OPTIONS", path := "/api/v1", rawQuery := "", headers := [],
        ctx := Ctx.inbound 0 }).1.status = 200 ∧
    (simpleServe "t" { newRequestOk := true, dispatch := Except.error "e" }
      { method := "OPTIONS", path := "/api/v1", rawQuery := "", headers := [],
        ctx := Ctx.inbound 0 }).2 = false ∧
    (optimizedServe "t" 0 0 ""
      { newRequestOk := true, dispatch := Except.error "e" } false
      { method := "OPTIONS", path := "/api/v1", rawQuery := "", headers := [],
        ctx := Ctx.inbound 0 }).1.status = 200 ∧
    (optimizedServe "t" 0 0 ""
      { newRequestOk := true, dispatch := Except.error "e" } false
      { method := "OPTIONS", path := "/api/v1", rawQuery := "", headers := [],
        ctx := Ctx.inbound 0 }).2 = false := by
  have h := C4_options_preflight "t" 0 0 ""
    { newRequestOk := true, dispatch := Except.error "e" } false
    { method := "OPTIONS", path := "/api/v1", rawQuery := "", headers := [],
      ctx := Ctx.inbound 0 } rfl
  have h1 := h.1 (by decide)
  have h2 := h.2 "/api/" (by decide)
  exact ⟨h1.1, h1.2.2.2, h2.1, h2.2.2.2⟩

/-- C4 counterexample: in the optimized variant an OPTIONS request to an
unregistered path never reaches the CORS middleware and is answered by the
mux built-in handler with 404, not 200. -/
theorem C4_counterexample :
    (optimizedServe "t" 0 0 ""
      { newRequestOk := true, dispatch := Except.error "e" } false
      { method := "OPTIONS", path := "/foo", rawQuery := "", headers := [],
        ctx := Ctx.inbound 0 }).1.status = 404 ∧
    ¬ ((optimizedServe "t" 0 0 ""
      { newRequestOk := true, dispatch := Except.error "e" } false
      { method := "OPTIONS", path := "/foo", rawQuery := "", headers := [],
        ctx := Ctx.inbound 0 }).1.status = 200) := by
  decide

/-- C10. The forwarder is reached only for paths strictly beginning with
the proxy prefix `/api/`, in both variants; the bare path `/api` is never
forwarded: the simple variant answers it with 404 (for a non-preflight
method) and the optimized variant answers it with the mux slash redirect,
neither reaching the forwarder. -/
theorem C10_api_prefix_routing (now : String) (count gor : Nat)
    (stats : String) (o : Oracle) (debug : Bool) (r : Request) :
    ((simpleServe now o r).2 = true → strStartsWith r.path "/api/" = true) ∧
    ((optimizedServe now count gor stats o debug r).2 = true →
      strStartsWith r.path "/api/" = true) ∧
    (simpleServe now o
      { method := "GET", path := "/api", rawQuery := "", headers := [],
        ctx := Ctx.inbound 0 }).1.status = 404 ∧
    (simpleServe now o
      { method := "GET", path := "/api", rawQuery := "", headers := [],
        ctx := Ctx.inbound 0 }).2 = false ∧
    (optimizedServe now count gor stats o debug
      { method := "GET", path := "/api", rawQuery := "", headers := [],
        ctx := Ctx.inbound 0 }).2 = false := by
  have hroute : muxRoute simplePatterns "/api" = Routed.handler "/" := by
    decide
  have hroute2 : muxRoute optimizedPatterns "/api"
      = Routed.redirectSlash "/api/" := by decide
  refine ⟨?_, ?_, ?_, ?_, ?_⟩
  · intro hfwd
    unfold simpleServe at hfwd
    rcases hR : muxRoute simplePatterns r.path with pat | loc | _ <;>
      rw [hR] at hfwd
    · replace hfwd : (if pat = "/health" then
          corsMiddleware (healthHandler now) r
        else corsMiddleware (rootHandler now o) r).2 = true := hfwd
      by_cases hh : pat = "/health"
      · rw [if_pos hh] at hfwd
        simp only [corsMiddleware] at hfwd
        split at hfwd
        · simp at hfwd
        · simp [healthHandler] at hfwd
      · rw [if_neg hh] at hfwd
        simp only [corsMiddleware] at hfwd
        split at hfwd
        · simp at hfwd
        · unfold rootHandler at hfwd
          split at hfwd
          · simp at hfwd
          · split at hfwd
            · rename_i hc
              exact hc
            · simp at hfwd
    · simp at hfwd
    · simp at hfwd
  · intro hfwd
    unfold optimizedServe at hfwd
    rcases hR : muxRoute optimizedPatterns r.path with pat | loc | _ <;>
      rw [hR] at hfwd
    · have hspec := muxLongestMatch_spec (muxRoute_handler_longest hR)
      have hmem : pat = "/health" ∨ pat = "/metrics" ∨ pat = "/api/" := by
        simpa [optimizedPatterns] using hspec.1
      rcases hmem with he | he | he
      · subst he
        replace hfwd :
            (corsMiddleware (healthHandlerOptimized now count gor) r).2
              = true := hfwd
        simp only [corsMiddleware] at hfwd
        split at hfwd
        · simp at hfwd
        · simp [healthHandlerOptimized] at hfwd
      · subst he
        replace hfwd :
            (corsMiddleware (metricsHandler count stats) r).2 = true := hfwd
        simp only [corsMiddleware] at hfwd
        split at hfwd
        · simp at hfwd
        · simp [metricsHandler] at hfwd
      · subst he
        have hmatch := hspec.2
        unfold patternMatches at hmatch
        rw [if_pos (by decide : (strEndsWith "/api/" "/") = true)] at hmatch
        exact hmatch
    · simp at hfwd
    · simp at hfwd
  · simp only [simpleServe, hroute, corsMiddleware, rootHandler, httpError]
    rfl
  · simp only [simpleServe, hroute, corsMiddleware, rootHandler, httpError]
    rfl
  · simp only [optimizedServe, hroute2]

/-- C10 witness: a concrete forwarded request has an `/api/`-prefixed path,
and the concrete `/api` request is a 404 in the simple variant and never
forwarded in either variant. -/
theorem C10_api_prefix_witness :
    strStartsWith "/api/v1" "/api/" = true ∧
    (simpleServe "t" { newRequestOk := true, dispatch := Except.error "e" }
      { method := "GET", path := "/api", rawQuery := "", headers := [],
        ctx := Ctx.inbound 0 }).1.status = 404 := by
  have h := C10_api_prefix_routing "t" 0 0 ""
    { newRequestOk := true, dispatch := Except.error "e" } false
    { method := "GET", path := "/api/v1", rawQuery := "", headers := [],
      ctx := Ctx.inbound 0 }
  exact ⟨h.1 (by decide), h.2.2.1⟩
